import Mathlib

/-!
Verification of the Cambium Fiber OLT SSH JSON getter
(`templates/zabbix/cambium-fiber/cambium_olt_ssh_json.py`).

The Python program is shallowly embedded: JSON documents become the
inductive type `Json`; the filesystem and clock become explicit values
(file states carry a modification time; "now" is a rational number, the
model of Python's float-valued `time.time()`); fallible code returns
`Except String`. Python `float` values are modelled as exact rationals.
Unicode-aware Python predicates (`str.isalnum`, `\d`, `str.strip()`) are
modelled by their ASCII restrictions, which is what every input exercised
here uses.
-/

/-! ## JSON documents -/

/-- A decoded JSON document, as produced by Python's `json.load`.
Python represents `true`/`false` as `bool`, which is kept separate from
`int` here exactly as `isinstance` checks separate them in the source
(`bool` is checked before numbers). A Python float is modelled as an
exact rational. -/
inductive Json where
  | null
  | bool (b : Bool)
  | int (n : ℤ)
  | float (q : ℚ)
  | str (s : String)
  | arr (xs : List Json)
  | obj (kvs : List (String × Json))
  deriving Repr

/-- First-occurrence association-list lookup: the model of `d[k]` /
`k in d` for a Python dict decoded from JSON (keys are unique there, so
first-occurrence lookup is exact). -/
def lookupKey : List (String × Json) → String → Option Json
  | [], _ => none
  | (k, v) :: rest, key => if k = key then some v else lookupKey rest key

/-- Model of Python `str()` on a decoded JSON value, as used by the
filter comparison and the array sort keys. Scalar cases are exact;
the textual form of floats (shortest round-trip repr) and of containers
(Python `repr`) is abstracted, since no claim depends on it. -/
def pyStr : Json → String
  | .null => "None"
  | .bool true => "True"
  | .bool false => "False"
  | .int n => toString n
  | .float q => toString q
  | .str s => s
  | .arr _ => "<list>"
  | .obj _ => "<dict>"

/-! ## Character and string helpers (models of Python `str` methods) -/

/-- ASCII whitespace stripped by Python `str.strip()`. -/
def isPyWs (c : Char) : Bool :=
  c = ' ' || c = '\t' || c = '\n' || c = '\r' || c = '\x0b' || c = '\x0c'

/-- Model of Python `str.strip(chars)`: drop characters satisfying `p`
from both ends. -/
def pyStripList (p : Char → Bool) (l : List Char) : List Char :=
  ((l.dropWhile p).reverse.dropWhile p).reverse

/-- `listStartsWith pat l` models Python `l.startswith(pat)`. -/
def listStartsWith : List Char → List Char → Bool
  | [], _ => true
  | _ :: _, [] => false
  | a :: as, b :: bs => a = b && listStartsWith as bs

/-- Numeric value of a run of ASCII digits (Python `int` of a digit
string, which never fails on digit runs). -/
def digitsToNat (l : List Char) : ℕ :=
  l.foldl (fun a c => 10 * a + (c.toNat - '0'.toNat)) 0

/-! ## NumberCoercer: `OLTTransport._coerce_numbers` -/

/-- Whole-string match of the source regex `^-?\d+$`
(`OLTTransport._int_re`). -/
def matchesIntRe (l : List Char) : Bool :=
  match l with
  | '-' :: rest => rest ≠ [] && rest.all Char.isDigit
  | _ => l ≠ [] && l.all Char.isDigit

/-- Whole-string match of the source regex `^-?\d+\.\d+$`
(`OLTTransport._float_re`). -/
def matchesFloatRe (l : List Char) : Bool :=
  let core := fun (m : List Char) =>
    let d1 := m.takeWhile Char.isDigit
    d1 ≠ [] &&
      (match m.drop d1.length with
       | '.' :: d2 => d2 ≠ [] && d2.all Char.isDigit
       | _ => false)
  match l with
  | '-' :: rest => core rest
  | _ => core l

/-- Integer value of a string matching `matchesIntRe` (Python `int(s)`,
which cannot fail on such strings). -/
def pyIntOfLit (l : List Char) : ℤ :=
  match l with
  | '-' :: rest => -(digitsToNat rest : ℤ)
  | _ => (digitsToNat l : ℤ)

/-- Rational value of a string matching `matchesFloatRe` (Python
`float(s)`; IEEE rounding is abstracted to the exact rational, and
`float(s)` cannot fail on such strings). -/
def pyFloatOfLit (l : List Char) : ℚ :=
  let core := fun (m : List Char) =>
    let d1 := m.takeWhile Char.isDigit
    let d2 := m.drop (d1.length + 1)
    (digitsToNat d1 : ℚ) + (digitsToNat d2 : ℚ) / 10 ^ d2.length
  match l with
  | '-' :: rest => -(core rest)
  | _ => core l

namespace OLTTransport

/-- String branch of `OLTTransport._coerce_numbers`: the input is
stripped, matched against `_int_re` then `_float_re`, and converted; on
no match the original (unstripped) string is returned unchanged. -/
def coerceString (s : String) : Json :=
  let t := pyStripList isPyWs s.data
  if matchesIntRe t then .int (pyIntOfLit t)
  else if matchesFloatRe t then .float (pyFloatOfLit t)
  else .str s

/-- Model of `OLTTransport._coerce_numbers`: recursively walk the
document; dicts and lists map the walk over their contents, booleans
become 0/1, strings go through `coerceString`, everything else is
returned unchanged. -/
def coerce_numbers : Json → Json
  | .obj kvs => .obj (kvs.attach.map (fun kv => (kv.1.1, coerce_numbers kv.1.2)))
  | .arr xs => .arr (xs.attach.map (fun x => coerce_numbers x.1))
  | .bool b => .int (if b then 1 else 0)
  | .str s => coerceString s
  | x => x
termination_by j => sizeOf j
decreasing_by
  · have := List.sizeOf_lt_of_mem kv.2
    have h2 : sizeOf kv.1.2 < sizeOf kv.1 := by
      obtain ⟨⟨a, b⟩, hm⟩ := kv
      simp only [Prod.mk.sizeOf_spec]
      omega
    simp only [Json.obj.sizeOf_spec]
    omega
  · have := List.sizeOf_lt_of_mem x.2
    simp only [Json.arr.sizeOf_spec]
    omega

/-! ## Credential redaction: `OLTTransport._redact_password`, `_redact_cmd` -/

/-- Model of `OLTTransport._redact_password`: empty passwords display a
placeholder, passwords of length at most 2 are fully masked, longer
passwords keep their first and last character around a run of
asterisks. -/
def redact_password (p : String) : String :=
  match p.data with
  | [] => "<empty>"
  | c :: rest =>
    if rest.length + 1 ≤ 2 then ⟨List.replicate (rest.length + 1) '*'⟩
    else ⟨c :: (List.replicate (rest.length - 1) '*' ++ [rest.getLastD c])⟩

/-- Model of `OLTTransport._redact_cmd`: walk the argument list; each
`-p` that is followed by another argument is kept and that following
argument is replaced by the redacted password; a trailing lone `-p`
and all other arguments pass through. -/
def redact_cmd : List String → String → List String
  | a :: b :: rest, pw =>
    if a = "-p" then a :: redact_password pw :: redact_cmd rest pw
    else a :: redact_cmd (b :: rest) pw
  | l, _ => l

/-- The argument vector built by `OLTTransport._run_sshpass` (the exact
list the source passes to `subprocess.run` and to `_redact_cmd`). -/
def build_ssh_cmd (host password : String) : List String :=
  ["sshpass", "-p", password,
   "ssh",
   "-o", "PreferredAuthentications=password",
   "-o", "PubkeyAuthentication=no",
   "-o", "StrictHostKeyChecking=no",
   "-o", "UserKnownHostsFile=/dev/null",
   "-o", "ConnectTimeout=10",
   "-T",
   "admin@" ++ host]

end OLTTransport

/-! ## Host sanitisation: `LockManager._sanitize_host` and `OLTCLI._sanatize_host` -/

/-- Characters the sanitiser keeps besides alphanumerics, and the set
stripped from both ends of the result (`"._-"`). -/
def safePunct (c : Char) : Bool := c = '.' || c = '_' || c = '-'

/-- Model of the part of Python `urllib.parse.urlparse` the sanitiser
uses: given the characters after `http://`/`https://`, the authority is
everything up to the first `/`, `?` or `#`; `urlparse` raises
`ValueError` ("Invalid IPv6 URL") when exactly one of `[`, `]` occurs in
the authority (modelled as `none`); the source then takes
`p.netloc or p.path`. The ;-parameter split of `urlparse` and the
bracketed-host validation of newer interpreters are not modelled: the
former cannot change the sanitiser's result (an empty authority always
leads to the "unknown" fallback), and no claim depends on the latter. -/
def urlNetlocOrPath (rest : List Char) : Option (List Char) :=
  let netloc := rest.takeWhile (fun c => !(c = '/' || c = '?' || c = '#'))
  if (netloc.contains '[') ≠ (netloc.contains ']') then none
  else if netloc ≠ [] then some netloc
  else some ((rest.drop netloc.length).takeWhile (fun c => !(c = '?' || c = '#')))

/-- Bracketed-IPv6 step of the sanitiser: when the candidate starts
with `[` and contains `]`, keep the characters between them
(`h[1:h.index("]")]`). -/
def extractBracketHost (h2 : List Char) : List Char :=
  if h2.head? = some '[' && h2.contains ']' then (h2.drop 1).takeWhile (fun c => c ≠ ']')
  else h2

/-- Port-stripping step of the sanitiser: with exactly one colon and no
brackets, keep the part before the colon. -/
def stripPort (h3 : List Char) : List Char :=
  if h3.contains ':' && h3.count ':' = 1 && !h3.contains '[' && !h3.contains ']' then
    h3.takeWhile (fun c => c ≠ ':')
  else h3

/-- Character-replacement steps of the sanitiser: remaining colons
become dashes, then every character that is neither alphanumeric nor
one of `._-` becomes an underscore. -/
def hostSafeMap (h4 : List Char) : List Char :=
  (h4.map (fun c => if c = ':' then '-' else c)).map
    (fun c => if c.isAlphanum || safePunct c then c else '_')

/-- Final step of the sanitiser: strip `._-` from both ends and fall
back to "unknown" when nothing remains. -/
def finalizeHost (h4 : List Char) : Option String :=
  if pyStripList safePunct (hostSafeMap h4) = [] then some "unknown"
  else some ⟨pyStripList safePunct (hostSafeMap h4)⟩

/-- Shared body of `LockManager._sanitize_host` and
`OLTCLI._sanatize_host`, which are character-for-character identical in
the source. `none` models the uncaught `ValueError` that `urlparse`
raises on a malformed bracketed authority. -/
def sanitizeHostCore (host : String) : Option String :=
  if pyStripList isPyWs host.data = [] then some "unknown"
  else
    match
      (if listStartsWith "http://".data (pyStripList isPyWs host.data) then
         urlNetlocOrPath ((pyStripList isPyWs host.data).drop 7)
       else if listStartsWith "https://".data (pyStripList isPyWs host.data) then
         urlNetlocOrPath ((pyStripList isPyWs host.data).drop 8)
       else some (pyStripList isPyWs host.data)) with
    | none => none
    | some h1 =>
      finalizeHost (stripPort (extractBracketHost (h1.takeWhile (fun c => c ≠ '/'))))

namespace LockManager

/-- Model of `LockManager._sanitize_host` (see `sanitizeHostCore`). -/
def sanitize_host (host : String) : Option String := sanitizeHostCore host

end LockManager

namespace OLTCLI

/-- Model of `OLTCLI._sanatize_host` (sic), which repeats
`LockManager._sanitize_host` verbatim. -/
def sanatize_host (host : String) : Option String := sanitizeHostCore host

end OLTCLI

/-! ## PathQuery: `JsonPath` -/

/-- Value slot of a `PathToken` (`Union[str, int, None]` in the source:
key tokens carry the key string, index tokens the parsed integer). -/
inductive PyVal where
  | s (v : String)
  | i (n : ℤ)
  deriving Repr, DecidableEq

/-- Model of the `PathToken` dataclass. `kind` is a plain string, as in
the source, so that the evaluator's "unknown token kind" error branch is
representable. -/
structure PathToken where
  kind : String
  value : Option PyVal
  filter_field : Option String
  filter_value : Option String
  deriving Repr, DecidableEq

namespace JsonPath

/-- Character class `[A-Za-z_]` (start of a bare key and of a filter
field). -/
def keyStartChar (c : Char) : Bool := c.isAlpha || c = '_'

/-- Character class `[A-Za-z0-9_-]` (continuation of a bare key). -/
def keyChar (c : Char) : Bool := c.isAlphanum || c = '_' || c = '-'

/-- Character class `[A-Za-z0-9_]` (continuation of a filter field). -/
def fieldChar (c : Char) : Bool := c.isAlphanum || c = '_'

/-- Bare-key alternative without the optional leading dot:
`[A-Za-z_][A-Za-z0-9_-]*`. Returns the token and the number of
characters consumed. -/
def tryKeyAt : List Char → Option (PathToken × ℕ)
  | c :: rest =>
    if keyStartChar c then
      let tail := rest.takeWhile keyChar
      some (⟨"key", some (.s ⟨c :: tail⟩), none, none⟩, 1 + tail.length)
    else none
  | [] => none

/-- First regex alternative: `\.?(?P<key>[A-Za-z_][A-Za-z0-9_-]*)`,
with the backtracking of the optional dot. -/
def tryKey (l : List Char) : Option (PathToken × ℕ) :=
  match l with
  | '.' :: rest =>
    match tryKeyAt rest with
    | some (t, n) => some (t, n + 1)
    | none => tryKeyAt l
  | _ => tryKeyAt l

/-- Quoted-key alternative without the optional leading dot:
`"(?P<qkey>[^"]+)"`. -/
def tryQuotedAt : List Char → Option (PathToken × ℕ)
  | '"' :: rest =>
    if rest.takeWhile (fun c => c ≠ '"') ≠ [] &&
        (rest.drop (rest.takeWhile (fun c => c ≠ '"')).length).head? = some '"' then
      some (⟨"key", some (.s ⟨rest.takeWhile (fun c => c ≠ '"')⟩), none, none⟩,
            (rest.takeWhile (fun c => c ≠ '"')).length + 2)
    else none
  | _ => none

/-- Second regex alternative: `\.?"(?P<qkey>[^"]+)"`, with the
backtracking of the optional dot. -/
def tryQuoted (l : List Char) : Option (PathToken × ℕ) :=
  match l with
  | '.' :: rest =>
    match tryQuotedAt rest with
    | some (t, n) => some (t, n + 1)
    | none => tryQuotedAt l
  | _ => tryQuotedAt l

/-- Third regex alternative:
`\[\?(?P<filter_field>[A-Za-z_][A-Za-z0-9_]*)=(?P<filter_value>[^\]]+)\]`. -/
def tryFilterTok : List Char → Option (PathToken × ℕ)
  | '[' :: '?' :: c :: rest2 =>
    if keyStartChar c then
      match rest2.drop (rest2.takeWhile fieldChar).length with
      | '=' :: rest3 =>
        if rest3.takeWhile (fun ch => ch ≠ ']') ≠ [] &&
            (rest3.drop (rest3.takeWhile (fun ch => ch ≠ ']')).length).head? = some ']' then
          some (⟨"filter", none, some ⟨c :: rest2.takeWhile fieldChar⟩,
                 some ⟨rest3.takeWhile (fun ch => ch ≠ ']')⟩⟩,
                (rest2.takeWhile fieldChar).length +
                  (rest3.takeWhile (fun ch => ch ≠ ']')).length + 5)
        else none
      | _ => none
    else none
  | _ => none

/-- Fourth regex alternative: `\[(?P<index>\d+|\*)\]`; `[*]` produces a
wildcard token, `[n]` an index token carrying `int(n)`. -/
def tryIndexTok : List Char → Option (PathToken × ℕ)
  | '[' :: '*' :: ']' :: _ => some (⟨"wildcard", none, none, none⟩, 3)
  | '[' :: rest =>
    if rest.takeWhile Char.isDigit ≠ [] &&
        (rest.drop (rest.takeWhile Char.isDigit).length).head? = some ']' then
      some (⟨"index", some (.i (digitsToNat (rest.takeWhile Char.isDigit) : ℤ)), none, none⟩,
            (rest.takeWhile Char.isDigit).length + 2)
    else none
  | _ => none

/-- Single-quote character (written via its code point to keep the
source free of quote-escape literals). -/
def squote : Char := Char.ofNat 39

/-- Fifth regex alternative: `\[(?P<bqkey>"[^"]+"|'[^']+')\]`; the token
value strips the surrounding quotes (`s[1:-1]` in the source). -/
def tryBracketQuoted : List Char → Option (PathToken × ℕ)
  | '[' :: q :: rest =>
    if q = '"' || q = squote then
      if rest.takeWhile (fun c => c ≠ q) ≠ [] &&
          (rest.drop (rest.takeWhile (fun c => c ≠ q)).length).head? = some q &&
          (rest.drop ((rest.takeWhile (fun c => c ≠ q)).length + 1)).head? = some ']' then
        some (⟨"key", some (.s ⟨rest.takeWhile (fun c => c ≠ q)⟩), none, none⟩,
              (rest.takeWhile (fun c => c ≠ q)).length + 4)
      else none
    else none
  | _ => none

/-- One step of the tokenizer: the regex alternatives tried in order at
the current position, as `re.finditer` does at each match start. -/
def tryToken (l : List Char) : Option (PathToken × ℕ) :=
  match tryKey l with
  | some r => some r
  | none =>
    match tryQuoted l with
    | some r => some r
    | none =>
      match tryFilterTok l with
      | some r => some r
      | none =>
        match tryIndexTok l with
        | some r => some r
        | none => tryBracketQuoted l

/-- Anchored scan loop of `JsonPath.parse`. `re.finditer` yields
leftmost matches, and the source rejects any match that does not start
exactly at the end of the previous one, so parsing is equivalent to:
repeatedly match one alternative at the current position; fail
(`invalid path near: ...`) as soon as no alternative matches there,
which also covers trailing unconsumed input. The fuel argument is only
a structural-recursion bound; every token consumes at least the head
character, so `fuel = length` never exhausts (see
`parseTokensAux_fuel_irrelevant`). -/
def parseTokensAux : ℕ → List Char → Except String (List PathToken)
  | _, [] => .ok []
  | 0, _ :: _ => .error "unreachable: fuel exhausted"
  | fuel + 1, c :: cs =>
    match tryToken (c :: cs) with
    | none => .error ("invalid path near: " ++ String.mk (c :: cs))
    | some (t, n) =>
      match parseTokensAux fuel (cs.drop (n - 1)) with
      | .ok ts => .ok (t :: ts)
      | .error e => .error e

/-- Model of `JsonPath.parse`. -/
def parse (path : String) : Except String (List PathToken) :=
  parseTokensAux path.data.length path.data

/-- Model of `str(token.value)` in the key branch of
`JsonPath._apply_one`. -/
def strOfOptPyVal : Option PyVal → String
  | some (.s v) => v
  | some (.i n) => toString n
  | none => "None"

/-- Model of Python `int(s)` on an arbitrary string, for the index
branch when a hand-built token carries a string: optional sign after
stripping whitespace, then digits (underscore grouping not modelled);
`none` models the `ValueError`. -/
def pyIntOfString (s : String) : Option ℤ :=
  let t := pyStripList isPyWs s.data
  match t with
  | '-' :: ds => if ds ≠ [] && ds.all Char.isDigit then some (-(digitsToNat ds : ℤ)) else none
  | '+' :: ds => if ds ≠ [] && ds.all Char.isDigit then some ((digitsToNat ds : ℤ)) else none
  | ds => if ds ≠ [] && ds.all Char.isDigit then some ((digitsToNat ds : ℤ)) else none

/-- Filter predicate of `JsonPath._apply_one`: the element is a dict,
contains the field, and its value stringifies equal to the literal. -/
def matchesFilterItem (f v : String) (item : Json) : Bool :=
  match item with
  | .obj kvs =>
    match lookupKey kvs f with
    | some fv => pyStr fv = v
    | none => false
  | _ => false

/-- Model of `JsonPath._apply_one`. Every absence (non-dict for a key,
missing key, non-list for a filter or index, no filter match,
out-of-range index) yields `Json.null`, the model of the Python `None`
the source returns; `.error` models the raised exceptions (`int()` of a
malformed value, unknown token kind). A filter token missing its field
or value behaves as "no match" exactly as `None` field/value lookups do
in Python. -/
def apply_one (cur : Json) (t : PathToken) : Except String Json :=
  if t.kind = "key" then
    match cur with
    | .obj kvs =>
      match lookupKey kvs (strOfOptPyVal t.value) with
      | some v => .ok v
      | none => .ok .null
    | _ => .ok .null
  else if t.kind = "filter" then
    match cur with
    | .arr xs =>
      match t.filter_field, t.filter_value with
      | some f, some v => .ok ((xs.find? (matchesFilterItem f v)).getD .null)
      | _, _ => .ok .null
    | _ => .ok .null
  else if t.kind = "index" then
    match cur with
    | .arr xs =>
      match t.value with
      | some (.i n) =>
        if 0 ≤ n ∧ n < xs.length then .ok (xs.getD n.toNat .null) else .ok .null
      | some (.s s) =>
        match pyIntOfString s with
        | some n =>
          if 0 ≤ n ∧ n < xs.length then .ok (xs.getD n.toNat .null) else .ok .null
        | none => .error "invalid literal for int()"
      | none => .error "int() argument is None"
    | _ => .ok .null
  else .error ("unknown token kind " ++ t.kind)

/-- Model of `JsonPath._apply_tokens` (with `_apply_wildcard` inlined at
the wildcard case): tokens are applied left to right; a wildcard
consumes all remaining tokens and maps them over the elements of the
current array (returning the bare array when no tokens remain, and
`Json.null` when the current value is not an array). -/
def apply_tokens : Json → List PathToken → Except String Json
  | cur, [] => .ok cur
  | cur, t :: rest =>
    if t.kind = "wildcard" then
      match cur with
      | .arr xs =>
        if rest.isEmpty then .ok (.arr xs)
        else (xs.mapM (fun x => apply_tokens x rest)).map .arr
      | _ => .ok .null
    else
      match apply_one cur t with
      | .ok nxt => apply_tokens nxt rest
      | .error e => .error e

/-- Model of `JsonPath._apply_wildcard` as a standalone function. -/
def apply_wildcard (cur : Json) (rest : List PathToken) : Except String Json :=
  match cur with
  | .arr xs =>
    if rest.isEmpty then .ok (.arr xs)
    else (xs.mapM (fun x => apply_tokens x rest)).map .arr
  | _ => .ok .null

/-- Model of `JsonPath.select` (an empty path returns the whole
document; the source's `Optional[str] = None` case coincides with the
empty string under `if not path`). -/
def select (data : Json) (path : String) : Except String Json :=
  if path = "" then .ok data
  else
    match parse path with
    | .ok toks => apply_tokens data toks
    | .error e => .error e

end JsonPath

/-! ## SnapshotCache: `CachePolicy` and `CacheStore` -/

/-- Model of the frozen `CachePolicy` dataclass. -/
structure CachePolicy where
  path : String
  ttl_seconds : ℤ
  enabled : Bool
  host : String

/-- State of the cache file on disk: its modification time (seconds, as
a rational, the model of the float clock) and the document its bytes
decode to (`none` models bytes that are not valid JSON, on which
`json.load` raises). -/
structure CacheFile where
  mtime : ℚ
  doc : Option Json

/-- Writability of the cache directory and file, the three failure
sites of `CacheStore.save` (`os.makedirs`, the `os.access` check, and
the write-and-rename). -/
structure CacheDirEnv where
  mkdirOk : Bool
  dirWritable : Bool
  writeOk : Bool

namespace CacheStore

/-- Model of `CacheStore.load_if_fresh`: `none` inside `.ok` is the
Python `None` (absent); disabled policy, missing file, and age strictly
greater than the TTL all return absent without touching the file's
contents; a fresh file returns its parsed document, and `.error` models
the `json.load` decode error on a fresh but corrupt file. -/
def load_if_fresh (policy : CachePolicy) (file : Option CacheFile) (now : ℚ) :
    Except String (Option Json) :=
  if policy.enabled = false then .ok none
  else
    match file with
    | none => .ok none
    | some f =>
      if now - f.mtime > (policy.ttl_seconds : ℚ) then .ok none
      else
        match f.doc with
        | some d => .ok (some d)
        | none => .error "cache file is not valid JSON"

/-- Model of `CacheStore.save`: a disabled policy writes nothing;
directory-creation, writability and write failures raise (the
`ValueError` re-raises in the source); otherwise the temp-file write
plus atomic `os.replace` leaves the cache file holding exactly the
saved document with the current time as its modification time.
(Serialisation is `json.dump` followed later by `json.load`, which is
the identity on decoded documents, so the file stores the document
itself.) -/
def save (policy : CachePolicy) (data : Json) (env : CacheDirEnv)
    (file : Option CacheFile) (now : ℚ) : Except String (Option CacheFile) :=
  if policy.enabled = false then .ok file
  else if env.mkdirOk = false then .error "Cannot create cache directory"
  else if env.dirWritable = false then .error "Cache directory is not writable"
  else if env.writeOk = false then .error "Cannot write cache file"
  else .ok (some ⟨now, some data⟩)

end CacheStore

/-! ## FetchLock: `LockManager` -/

/-- External world as seen through the filesystem while waiting: the
lock file's modification time (if it exists) and the cache file's state,
both as functions of the current time, so that other processes'
releases and writes are expressible. -/
structure LockWorld where
  lockMtime : ℚ → Option ℚ
  cacheFile : ℚ → Option CacheFile

/-- Model of `OLTClient.OLT_LOCK_POLL_INTERVAL` (250 ms). -/
def OLT_LOCK_POLL_INTERVAL : ℚ := 1 / 4

/-- Result of `LockManager.wait_for_refresh`: whether the caller may
proceed, the time at which the loop returned, and the time at which the
stale lock file was touched (`os.utime`), if it was. -/
structure WaitOutcome where
  proceed : Bool
  endTime : ℚ
  touchedAt : Option ℚ
  deriving Repr, DecidableEq

namespace LockManager

/-- Model of `LockManager._is_cache_fresh`. -/
def is_cache_fresh (policy : CachePolicy) (w : LockWorld) (t : ℚ) : Bool :=
  policy.enabled &&
    match w.cacheFile t with
    | none => false
    | some f => decide (t - f.mtime ≤ (policy.ttl_seconds : ℚ))

/-- Loop body of `LockManager.wait_for_refresh`. Each iteration samples
the clock once (the source's several `time.time()` calls per iteration
are collapsed to one sample, and `time.sleep` advances the sample by the
poll interval); `timeout` is `OLTClient.OLT_LOCK_TIMEOUT` (30 unless
overridden by the environment). The touch of a stale lock is modelled as
succeeding (the source merely keeps polling if `os.utime` fails). The
fuel argument is a structural-recursion bound standing for the
while-guard: exhaustion returns the same timeout outcome the guard
produces, and callers pass enough fuel for the guard to fire first. -/
def waitLoop (policy : CachePolicy) (w : LockWorld) (timeout start : ℚ) :
    ℕ → ℚ → WaitOutcome
  | 0, t => ⟨false, t, none⟩
  | fuel + 1, t =>
    if t - start < timeout then
      if is_cache_fresh policy w t then ⟨true, t, none⟩
      else
        match w.lockMtime t with
        | some lm =>
          if t - lm > 10 then ⟨true, t, some t⟩
          else waitLoop policy w timeout start fuel (t + OLT_LOCK_POLL_INTERVAL)
        | none => waitLoop policy w timeout start fuel (t + OLT_LOCK_POLL_INTERVAL)
    else ⟨false, t, none⟩

/-- Model of `LockManager.wait_for_refresh`, started at time `start`. -/
def wait_for_refresh (policy : CachePolicy) (w : LockWorld) (timeout : ℚ)
    (fuel : ℕ) (start : ℚ) : WaitOutcome :=
  waitLoop policy w timeout start fuel start

end LockManager

/-! ## Orchestrator: `OLTClient` -/

namespace OLTClient

/-- The length-1 entries of `ARRAY_SORT_FIELDS`, in dict insertion
order, as iterated by the first loop of `_sort_arrays`. -/
def topLevelSortSpecs : List (String × String) :=
  [("ONU", "SN"), ("PON", "Name"), ("Ethernet", "Name")]

/-- The length-2 entries of `ARRAY_SORT_FIELDS`, in dict insertion
order, as iterated by the second loop of `_sort_arrays`. -/
def nestedSortSpecs : List (String × String × String) :=
  [("System", "Fans", "Name"), ("System", "ThermalStatus", "Name")]

/-- Sort key of one array element:
`str(item.get(sort_field, "")) if isinstance(item, dict) else ""`. -/
def sortKeyOf (field : String) (item : Json) : String :=
  match item with
  | .obj kvs =>
    match lookupKey kvs field with
    | some v => pyStr v
    | none => ""
  | _ => ""

/-- Model of `OLTClient._sort_object_keys`: on a dict, reorder the
top-level keys (priority key first when present, the rest sorted
ascending), keeping the values untouched; on a list, recurse over the
elements; elsewhere the identity. The rebuilt dict looks each key up in
the original (`obj[k]`). -/
def sort_object_keys (priority : Option String) : Json → Json
  | .obj kvs =>
    let keys := kvs.map Prod.fst
    match priority with
    | some p =>
      if keys.contains p then
        let sortedKeys := p :: ((keys.filter (fun k => k ≠ p)).mergeSort (fun a b => a ≤ b))
        .obj (sortedKeys.map (fun k => (k, (lookupKey kvs k).getD .null)))
      else
        .obj ((keys.mergeSort (fun a b => a ≤ b)).map (fun k => (k, (lookupKey kvs k).getD .null)))
    | none =>
      .obj ((keys.mergeSort (fun a b => a ≤ b)).map (fun k => (k, (lookupKey kvs k).getD .null)))
  | .arr xs => .arr (xs.attach.map (fun x => sort_object_keys priority x.1))
  | x => x
termination_by j => sizeOf j
decreasing_by
  have := List.sizeOf_lt_of_mem x.2
  simp only [Json.arr.sizeOf_spec]
  omega

/-- Dict assignment `d[k] = v` on the association-list model: replace
the value at the first occurrence of `k`, append when absent (the
callers only assign keys that are present). -/
def setKey : List (String × Json) → String → Json → List (String × Json)
  | [], k, v => [(k, v)]
  | (k0, v0) :: rest, k, v =>
    if k0 = k then (k0, v) :: rest else (k0, v0) :: setKey rest k v

/-- One step of the first loop of `_sort_arrays`: when the named
top-level key holds a list, sort it by the sort field (Python `sorted`
is a stable sort, as is `mergeSort`, so the results agree) and reorder
each element's keys with the sort field first. -/
def sortTopArray (data : List (String × Json)) (spec : String × String) :
    List (String × Json) :=
  match lookupKey data spec.1 with
  | some (.arr xs) =>
    let sorted := (xs.mergeSort (fun a b => sortKeyOf spec.2 a ≤ sortKeyOf spec.2 b)).map
      (sort_object_keys (some spec.2))
    setKey data spec.1 (.arr sorted)
  | _ => data

/-- One step of the second loop of `_sort_arrays`: the same for a
child list nested inside a top-level dict. -/
def sortNestedArray (data : List (String × Json)) (spec : String × String × String) :
    List (String × Json) :=
  match lookupKey data spec.1 with
  | some (.obj sys) =>
    match lookupKey sys spec.2.1 with
    | some (.arr xs) =>
      let sorted := (xs.mergeSort (fun a b => sortKeyOf spec.2.2 a ≤ sortKeyOf spec.2.2 b)).map
        (sort_object_keys (some spec.2.2))
      setKey data spec.1 (.obj (setKey sys spec.2.1 (.arr sorted)))
    | _ => data
  | _ => data

/-- Model of `OLTClient._sort_arrays`: non-dicts are returned unchanged;
otherwise the top-level and nested sort specs are applied in source
order. -/
def sort_arrays (data : Json) : Json :=
  match data with
  | .obj kvs => .obj (nestedSortSpecs.foldl sortNestedArray (topLevelSortSpecs.foldl sortTopArray kvs))
  | _ => data

/-- Outcome of `OLTClient.get_all`: the returned document, plus the
document `CacheStore.save` was called with (`none` when `save` was never
called, which is the frame fact "the cache file is not written"). -/
structure FetchOutcome where
  value : Json
  savedDoc : Option Json

/-- Model of `OLTClient.get_all`. The transport is abstracted to the
document `fetched` that `fetch_all` returns; `w` is the externally
visible lock/cache state over time; `t0` the invocation time (the
remote fetch duration is not modelled — no branch after a fetch reads
the clock again). Lock acquisition (`os.open` with `O_CREAT|O_EXCL`)
succeeds exactly when no lock file exists at `t0`; on that path the
sorted document is saved and returned. Otherwise the caller waits; if
the wait says "proceed" and the cache has become fresh, load it (a
decode error propagates, as in the source); on a wait timeout, or a
proceed with a still-missing cache, fetch anyway and return the sorted
document without saving. -/
def get_all (policy : CachePolicy) (w : LockWorld) (env : CacheDirEnv)
    (fetched : Json) (timeout : ℚ) (fuel : ℕ) (t0 : ℚ) : Except String FetchOutcome :=
  match CacheStore.load_if_fresh policy (w.cacheFile t0) t0 with
  | .error e => .error e
  | .ok (some d) => .ok ⟨d, none⟩
  | .ok none =>
    match w.lockMtime t0 with
    | none =>
      let data := sort_arrays fetched
      match CacheStore.save policy data env (w.cacheFile t0) t0 with
      | .error e => .error e
      | .ok _ => .ok ⟨data, some data⟩
    | some _ =>
      let r := LockManager.wait_for_refresh policy w timeout fuel t0
      if r.proceed then
        match CacheStore.load_if_fresh policy (w.cacheFile r.endTime) r.endTime with
        | .error e => .error e
        | .ok (some d) => .ok ⟨d, none⟩
        | .ok none => .ok ⟨sort_arrays fetched, none⟩
      else .ok ⟨sort_arrays fetched, none⟩

end OLTClient

/-! ## Predicates used only by theorem statements -/

/-- Whether a document is a dict (Python `isinstance(x, dict)`). -/
def Json.isObjB : Json → Bool
  | .obj _ => true
  | _ => false

/-- Whether a document is a list (Python `isinstance(x, list)`). -/
def Json.isArrB : Json → Bool
  | .arr _ => true
  | _ => false

/-- Well-formedness of a `PathToken` as produced by `JsonPath.parse`:
the kind is one of the four grammar kinds and the payload slots carry
what the parser puts there (a string for keys, a non-negative integer
for indices, both filter slots for filters). -/
def GoodToken (t : PathToken) : Prop :=
  (t.kind = "key" ∧ ∃ s, t.value = some (.s s)) ∨
  (t.kind = "index" ∧ ∃ n : ℤ, 0 ≤ n ∧ t.value = some (.i n)) ∨
  (t.kind = "wildcard") ∨
  (t.kind = "filter" ∧ ∃ f v, t.filter_field = some f ∧ t.filter_value = some v)

/-! ## Basic lemmas about `Json` -/

theorem Json.sizeOf_pos (j : Json) : 0 < sizeOf j := by
  cases j <;> simp

theorem Json.sizeOf_mem_arr {x : Json} {xs : List Json} (h : x ∈ xs) :
    sizeOf x < sizeOf (Json.arr xs) := by
  have := List.sizeOf_lt_of_mem h
  simp only [Json.arr.sizeOf_spec]
  omega

theorem Json.sizeOf_mem_obj {kv : String × Json} {kvs : List (String × Json)} (h : kv ∈ kvs) :
    sizeOf kv.2 < sizeOf (Json.obj kvs) := by
  have h1 := List.sizeOf_lt_of_mem h
  have h2 : sizeOf kv.2 < sizeOf kv := by
    obtain ⟨a, b⟩ := kv
    simp only [Prod.mk.sizeOf_spec]
    omega
  simp only [Json.obj.sizeOf_spec]
  omega

/-- Structural induction over `Json` with membership hypotheses for the
two container constructors. -/
theorem Json.myInduction (P : Json → Prop)
    (hnull : P .null) (hbool : ∀ b, P (.bool b)) (hint : ∀ n, P (.int n))
    (hfloat : ∀ q, P (.float q)) (hstr : ∀ s, P (.str s))
    (harr : ∀ xs, (∀ x ∈ xs, P x) → P (.arr xs))
    (hobj : ∀ kvs, (∀ kv ∈ kvs, P kv.2) → P (.obj kvs)) : ∀ j, P j := by
  have key : ∀ n (j : Json), sizeOf j ≤ n → P j := by
    intro n
    induction n with
    | zero =>
      intro j h
      exact absurd h (by have := Json.sizeOf_pos j; omega)
    | succ n ih =>
      intro j h
      cases j with
      | arr xs =>
        refine harr xs (fun x hx => ih x ?_)
        have := Json.sizeOf_mem_arr hx
        simp only [Json.arr.sizeOf_spec] at this h
        omega
      | obj kvs =>
        refine hobj kvs (fun kv hkv => ih kv.2 ?_)
        have := Json.sizeOf_mem_obj hkv
        simp only [Json.obj.sizeOf_spec] at this h
        omega
      | null => exact hnull
      | bool b => exact hbool b
      | int m => exact hint m
      | float q => exact hfloat q
      | str s => exact hstr s
  exact fun j => key (sizeOf j) j le_rfl

/-! ## Unfolding lemmas for `coerce_numbers` -/

namespace OLTTransport

theorem coerce_numbers_arr (xs : List Json) :
    coerce_numbers (.arr xs) = .arr (xs.map coerce_numbers) := by
  rw [coerce_numbers]
  simp [List.attach_map_coe]

theorem coerce_numbers_obj (kvs : List (String × Json)) :
    coerce_numbers (.obj kvs) = .obj (kvs.map (fun kv => (kv.1, coerce_numbers kv.2))) := by
  rw [coerce_numbers]
  congr 1
  rw [← List.attach_map_coe kvs (fun kv => (kv.1, coerce_numbers kv.2))]

theorem coerce_numbers_str (s : String) : coerce_numbers (.str s) = coerceString s := by
  rw [coerce_numbers]

theorem coerce_numbers_null : coerce_numbers .null = .null := by
  rw [coerce_numbers] <;> (intros _ h; exact Json.noConfusion h)

theorem coerce_numbers_int (n : ℤ) : coerce_numbers (.int n) = .int n := by
  rw [coerce_numbers] <;> (intros _ h; exact Json.noConfusion h)

theorem coerce_numbers_float (q : ℚ) : coerce_numbers (.float q) = .float q := by
  rw [coerce_numbers] <;> (intros _ h; exact Json.noConfusion h)

theorem coerce_numbers_bool (b : Bool) :
    coerce_numbers (.bool b) = .int (if b then 1 else 0) := by
  rw [coerce_numbers]

/-- `coerceString` returns an integer, a float, or the original string. -/
theorem coerceString_trichotomy (s : String) :
    (∃ n, coerceString s = .int n) ∨ (∃ q, coerceString s = .float q) ∨
      coerceString s = .str s := by
  simp only [coerceString]
  split_ifs with h1 h2
  · exact Or.inl ⟨_, rfl⟩
  · exact Or.inr (Or.inl ⟨_, rfl⟩)
  · exact Or.inr (Or.inr rfl)

end OLTTransport

/-! ## Claim C7: string-to-number coercion (corrected) -/

/-- Claim C7, counterexample: the claim says a string with surrounding
whitespace such as `" 123 "` passes through unchanged, but
`_coerce_numbers` strips the string before matching `^-?\d+$`, so
`" 123 "` is converted to the integer 123. -/
theorem spec_c7_counterexample :
    OLTTransport.coerce_numbers (.str " 123 ") = .int 123 ∧
      OLTTransport.coerce_numbers (.str " 123 ") ≠ .str " 123 " := by
  constructor
  · rw [OLTTransport.coerce_numbers_str]
    rfl
  · rw [OLTTransport.coerce_numbers_str]
    intro h
    rw [show OLTTransport.coerceString " 123 " = .int 123 from rfl] at h
    exact Json.noConfusion h

/-- Claim C7 as amended: `_coerce_numbers` transforms string scalars
exactly as follows: a string whose stripped content matches `^-?\d+$`
becomes the integer value of the stripped content; otherwise, one whose
stripped content matches `^-?\d+\.\d+$` becomes the float value of the
stripped content; every other string — including strings containing
non-digit characters such as "v1.2.3" or "abc123" — passes through
unchanged. (Only the treatment of surrounding whitespace differs from
the original claim: `" 123 "` becomes the integer 123.) -/
theorem spec_c7 :
    (∀ s : String, matchesIntRe (pyStripList isPyWs s.data) = true →
      OLTTransport.coerce_numbers (.str s) = .int (pyIntOfLit (pyStripList isPyWs s.data))) ∧
    (∀ s : String, matchesIntRe (pyStripList isPyWs s.data) = false →
      matchesFloatRe (pyStripList isPyWs s.data) = true →
      OLTTransport.coerce_numbers (.str s) = .float (pyFloatOfLit (pyStripList isPyWs s.data))) ∧
    (∀ s : String, matchesIntRe (pyStripList isPyWs s.data) = false →
      matchesFloatRe (pyStripList isPyWs s.data) = false →
      OLTTransport.coerce_numbers (.str s) = .str s) ∧
    OLTTransport.coerce_numbers (.str "v1.2.3") = .str "v1.2.3" ∧
    OLTTransport.coerce_numbers (.str "abc123") = .str "abc123" ∧
    OLTTransport.coerce_numbers (.str " 123 ") = .int 123 := by
  refine ⟨fun s h => ?_, fun s h1 h2 => ?_, fun s h1 h2 => ?_, ?_, ?_, ?_⟩
  · rw [OLTTransport.coerce_numbers_str]
    simp [OLTTransport.coerceString, h]
  · rw [OLTTransport.coerce_numbers_str]
    simp [OLTTransport.coerceString, h1, h2]
  · rw [OLTTransport.coerce_numbers_str]
    simp [OLTTransport.coerceString, h1, h2]
  · rw [OLTTransport.coerce_numbers_str]; rfl
  · rw [OLTTransport.coerce_numbers_str]; rfl
  · rw [OLTTransport.coerce_numbers_str]; rfl

/-- Witness for C7 at concrete inputs: "42" is converted through the
integer branch, "1.5" through the float branch, "x7" passes through. -/
theorem spec_c7_witness :
    OLTTransport.coerce_numbers (.str "42") = .int (pyIntOfLit (pyStripList isPyWs "42".data)) ∧
    OLTTransport.coerce_numbers (.str "1.5") = .float (pyFloatOfLit (pyStripList isPyWs "1.5".data)) ∧
    OLTTransport.coerce_numbers (.str "x7") = .str "x7" :=
  ⟨spec_c7.1 "42" (by decide),
   spec_c7.2.1 "1.5" (by decide) (by decide),
   spec_c7.2.2.1 "x7" (by decide) (by decide)⟩

/-! ## Claim C8: coercion is idempotent -/

/-- Claim C8: `_coerce_numbers` is idempotent — applying it twice to any
document (maps, arrays, strings, numbers, booleans, null) equals
applying it once. -/
theorem spec_c8 (d : Json) :
    OLTTransport.coerce_numbers (OLTTransport.coerce_numbers d) =
      OLTTransport.coerce_numbers d := by
  induction d using Json.myInduction with
  | hnull => simp [OLTTransport.coerce_numbers_null]
  | hbool b =>
    cases b <;>
      simp [OLTTransport.coerce_numbers_bool, OLTTransport.coerce_numbers_int]
  | hint n => simp [OLTTransport.coerce_numbers_int]
  | hfloat q => simp [OLTTransport.coerce_numbers_float]
  | hstr s =>
    rw [OLTTransport.coerce_numbers_str]
    rcases OLTTransport.coerceString_trichotomy s with ⟨n, h⟩ | ⟨q, h⟩ | h
    · rw [h, OLTTransport.coerce_numbers_int]
    · rw [h, OLTTransport.coerce_numbers_float]
    · rw [h, OLTTransport.coerce_numbers_str]
      exact h
  | harr xs ih =>
    rw [OLTTransport.coerce_numbers_arr, OLTTransport.coerce_numbers_arr, List.map_map]
    congr 1
    exact List.map_congr_left (fun x hx => ih x hx)
  | hobj kvs ih =>
    rw [OLTTransport.coerce_numbers_obj, OLTTransport.coerce_numbers_obj, List.map_map]
    congr 1
    refine List.map_congr_left (fun kv hkv => ?_)
    simp only [Function.comp]
    rw [ih kv hkv]

/-! ## Claim C9: credential redaction -/

theorem getLastD_append_singleton {α : Type} (l : List α) (d c : α) :
    (l ++ [d]).getLastD c = d := by
  induction l with
  | nil => rfl
  | cons a as ih =>
    cases as with
    | nil => rfl
    | cons b bs => simpa using ih

/-- Claim C9: for passwords of length at least 3, `_redact_password`
keeps the first character, then length−2 asterisks, then the last
character; non-empty passwords of length at most 2 are replaced by
asterisks only; `_redact_cmd` on the argument vector built by
`_run_sshpass` replaces the argument following `-p` by the redacted
form — the redacted vector is the original with the password slot
replaced — so the logged command line does not contain the password
(as an argument), barring the coincidences excluded by the last
hypotheses (a password that is its own redaction, equals one of the
fixed arguments, or equals the `admin@host` target). -/
theorem spec_c9 :
    (∀ (c d : Char) (mid : List Char), mid ≠ [] →
      OLTTransport.redact_password ⟨c :: (mid ++ [d])⟩ =
        ⟨c :: (List.replicate mid.length '*' ++ [d])⟩) ∧
    (∀ p : String, p ≠ "" → p.length ≤ 2 →
      OLTTransport.redact_password p = ⟨List.replicate p.length '*'⟩) ∧
    (∀ host pw : String,
      OLTTransport.redact_cmd (OLTTransport.build_ssh_cmd host pw) pw =
        OLTTransport.build_ssh_cmd host (OLTTransport.redact_password pw)) ∧
    (∀ host pw : String, pw ≠ OLTTransport.redact_password pw →
      pw ∉ (["sshpass", "-p", "ssh", "-o", "PreferredAuthentications=password",
             "PubkeyAuthentication=no", "StrictHostKeyChecking=no",
             "UserKnownHostsFile=/dev/null", "ConnectTimeout=10", "-T"] : List String) →
      pw ≠ "admin@" ++ host →
      pw ∉ OLTTransport.redact_cmd (OLTTransport.build_ssh_cmd host pw) pw) := by
  have hred : ∀ host pw : String,
      OLTTransport.redact_cmd (OLTTransport.build_ssh_cmd host pw) pw =
        OLTTransport.build_ssh_cmd host (OLTTransport.redact_password pw) :=
    fun host pw => rfl
  refine ⟨fun c d mid hmid => ?_, fun p hne hlen => ?_, hred, fun host pw h1 h2 h3 hmem => ?_⟩
  · have hunf : OLTTransport.redact_password ⟨c :: (mid ++ [d])⟩ =
        if (mid ++ [d]).length + 1 ≤ 2 then ⟨List.replicate ((mid ++ [d]).length + 1) '*'⟩
        else ⟨c :: (List.replicate ((mid ++ [d]).length - 1) '*' ++ [(mid ++ [d]).getLastD c])⟩ :=
      rfl
    have hpos : 0 < mid.length := List.length_pos.mpr hmid
    rw [hunf, if_neg (by simp only [List.length_append, List.length_cons, List.length_nil]; omega)]
    rw [getLastD_append_singleton]
    have : (mid ++ [d]).length - 1 = mid.length := by
      simp only [List.length_append, List.length_cons, List.length_nil]
      omega
    rw [this]
  · rcases p with ⟨l⟩
    cases l with
    | nil => exact absurd rfl hne
    | cons c rest =>
      have hunf : OLTTransport.redact_password ⟨c :: rest⟩ =
          if rest.length + 1 ≤ 2 then ⟨List.replicate (rest.length + 1) '*'⟩
          else ⟨c :: (List.replicate (rest.length - 1) '*' ++ [rest.getLastD c])⟩ := rfl
      have hl : rest.length + 1 ≤ 2 := by
        simpa [String.length] using hlen
      rw [hunf, if_pos hl]
      simp [String.length]
  · rw [hred host pw] at hmem
    simp only [OLTTransport.build_ssh_cmd, List.mem_cons, List.mem_singleton] at hmem
    simp only [List.mem_cons, List.not_mem_nil, or_false] at h2
    push_neg at h2
    obtain ⟨n1, n2, n3, n4, n5, n6, n7, n8, n9, n10⟩ := h2
    rcases hmem with h | h | h | h | h | h | h | h | h | h | h | h | h | h | h
    all_goals first
      | exact absurd h h1
      | exact absurd h n1
      | exact absurd h n2
      | exact absurd h n3
      | exact absurd h n4
      | exact absurd h n5
      | exact absurd h n6
      | exact absurd h n7
      | exact absurd h n8
      | exact absurd h n9
      | exact absurd h n10
      | exact absurd h h3
      | simp_all

/-- Witness for C9 at concrete inputs: the six-character password
"secret" redacts to "s****t"; the two-character password "ab" to "**";
the redacted command vector for host "10.0.0.2" and password "secret"
is the built vector with "s****t" in the password slot, and "secret"
does not occur in it. -/
theorem spec_c9_witness :
    OLTTransport.redact_password ⟨'s' :: (['e', 'c', 'r', 'e'] ++ ['t'])⟩ =
        ⟨'s' :: (List.replicate 4 '*' ++ ['t'])⟩ ∧
    OLTTransport.redact_password "ab" = ⟨List.replicate ("ab").length '*'⟩ ∧
    OLTTransport.redact_cmd (OLTTransport.build_ssh_cmd "10.0.0.2" "secret") "secret" =
        OLTTransport.build_ssh_cmd "10.0.0.2" (OLTTransport.redact_password "secret") ∧
    "secret" ∉ OLTTransport.redact_cmd (OLTTransport.build_ssh_cmd "10.0.0.2" "secret") "secret" :=
  ⟨by simpa using spec_c9.1 's' 't' ['e', 'c', 'r', 'e'] (by decide),
   spec_c9.2.1 "ab" (by decide) (by decide),
   spec_c9.2.2.1 "10.0.0.2" "secret",
   spec_c9.2.2.2 "10.0.0.2" "secret" (by decide) (by decide) (by decide)⟩

/-! ## Claim C10: host sanitisation (corrected) -/

theorem head?_dropWhile_false {α : Type} (p : α → Bool) (l : List α) {c : α}
    (h : (l.dropWhile p).head? = some c) : p c = false := by
  have hne : l.dropWhile p ≠ [] := by
    intro hnil
    rw [hnil] at h
    simp at h
  have hhead := List.head_dropWhile_not p l hne
  rw [List.head?_eq_head hne] at h
  have : (l.dropWhile p).head hne = c := by
    injection h
  rw [this] at hhead
  exact hhead

theorem mem_pyStripList {p : Char → Bool} {l : List Char} {c : Char}
    (h : c ∈ pyStripList p l) : c ∈ l := by
  simp only [pyStripList, List.mem_reverse] at h
  have h1 := (List.dropWhile_suffix p).sublist.subset h
  simp only [List.mem_reverse] at h1
  exact (List.dropWhile_suffix p).sublist.subset h1

theorem head?_pyStripList_false {p : Char → Bool} {l : List Char} {c : Char}
    (h : (pyStripList p l).head? = some c) : p c = false := by
  simp only [pyStripList] at h
  rw [List.head?_reverse] at h
  have hBne : (l.dropWhile p).reverse.dropWhile p ≠ [] := by
    intro hnil
    rw [hnil] at h
    simp at h
  obtain ⟨t, ht⟩ := List.dropWhile_suffix (l := (l.dropWhile p).reverse) p
  have hlast : (l.dropWhile p).reverse.getLast? = some c := by
    rw [← ht, List.getLast?_append_of_ne_nil t hBne]
    exact h
  rw [List.getLast?_reverse] at hlast
  exact head?_dropWhile_false p l hlast

theorem getLast?_pyStripList_false {p : Char → Bool} {l : List Char} {c : Char}
    (h : (pyStripList p l).getLast? = some c) : p c = false := by
  simp only [pyStripList] at h
  rw [List.getLast?_reverse] at h
  exact head?_dropWhile_false p _ h

theorem pyStripList_all_nil {p : Char → Bool} {l : List Char} (h : ∀ c ∈ l, p c) :
    pyStripList p l = [] := by
  have h1 : l.dropWhile p = [] := List.dropWhile_eq_nil_iff.mpr h
  simp [pyStripList, h1]

/-- Safety of a stripped character list: nonempty after stripping means
a nonempty string of safe characters that neither starts nor ends with
a stripped character. -/
theorem strippedSafe (m : List Char) (hm : ∀ c ∈ m, (c.isAlphanum || safePunct c) = true)
    (hne : pyStripList safePunct m ≠ []) :
    (String.mk (pyStripList safePunct m)) ≠ "" ∧
    (∀ c ∈ (String.mk (pyStripList safePunct m)).data, (c.isAlphanum || safePunct c) = true) ∧
    (∀ c, (String.mk (pyStripList safePunct m)).data.head? = some c → safePunct c = false) ∧
    (∀ c, (String.mk (pyStripList safePunct m)).data.getLast? = some c → safePunct c = false) := by
  refine ⟨?_, ?_, ?_, ?_⟩
  · intro hcontra
    have : pyStripList safePunct m = [] := by
      have := congrArg String.data hcontra
      simpa using this
    exact hne this
  · intro c hc
    exact hm c (mem_pyStripList hc)
  · intro c hc
    exact head?_pyStripList_false hc
  · intro c hc
    exact getLast?_pyStripList_false hc

/-- Claim C10, counterexample: on the input "http://[x" both sanitisers
call `urlparse`, which raises `ValueError` ("Invalid IPv6 URL") because
the authority contains `[` without `]`; neither function returns a
string there, so "for every input string h ... return the same
non-empty string" fails. -/
theorem spec_c10_counterexample :
    LockManager.sanitize_host "http://[x" = none ∧
      OLTCLI.sanatize_host "http://[x" = none :=
  ⟨rfl, rfl⟩

/-- Claim C10 as amended: for every input on which the (identical)
sanitisers return at all — that is, every input that is not an
http(s) URL whose authority has unbalanced square brackets, on which
`urlparse` raises `ValueError` — `LockManager._sanitize_host` and
`OLTCLI._sanatize_host` return the same non-empty string, whose
characters are all alphanumeric or one of `.`, `_`, `-`, and which
neither begins nor ends with `.`, `_` or `-`; empty or whitespace-only
input yields "unknown". -/
theorem spec_c10 :
    (∀ h : String, OLTCLI.sanatize_host h = LockManager.sanitize_host h) ∧
    (∀ (h : String) (r : String), LockManager.sanitize_host h = some r →
      r ≠ "" ∧
      (∀ c ∈ r.data, (c.isAlphanum || safePunct c) = true) ∧
      (∀ c, r.data.head? = some c → safePunct c = false) ∧
      (∀ c, r.data.getLast? = some c → safePunct c = false)) ∧
    (∀ h : String, h.data.all isPyWs → LockManager.sanitize_host h = some "unknown") := by
  have hunknown :
      ("unknown" : String) ≠ "" ∧
      (∀ c ∈ ("unknown" : String).data, (c.isAlphanum || safePunct c) = true) ∧
      (∀ c, ("unknown" : String).data.head? = some c → safePunct c = false) ∧
      (∀ c, ("unknown" : String).data.getLast? = some c → safePunct c = false) := by
    refine ⟨by decide, by decide, by decide, by decide⟩
  refine ⟨fun h => rfl, fun h r hr => ?_, fun h hws => ?_⟩
  · unfold LockManager.sanitize_host sanitizeHostCore at hr
    split at hr
    · rw [Option.some.injEq] at hr
      rw [← hr]
      exact hunknown
    · split at hr
      · exact absurd hr (by simp)
      · unfold finalizeHost at hr
        split at hr
        · rw [Option.some.injEq] at hr
          rw [← hr]
          exact hunknown
        case _ h7ne =>
          rw [Option.some.injEq] at hr
          rw [← hr]
          refine strippedSafe _ ?_ h7ne
          intro c hc
          simp only [hostSafeMap, List.map_map, List.mem_map] at hc
          obtain ⟨a, _, rfl⟩ := hc
          simp only [Function.comp]
          split
          · decide
          · split
            · next hca => exact hca
            · decide
  · unfold LockManager.sanitize_host sanitizeHostCore
    rw [if_pos]
    exact pyStripList_all_nil (by simpa [List.all_eq_true] using hws)

/-- Witness for C10 at concrete inputs: "192.168.1.10:22" sanitises (in
both functions) to the non-empty safe string "192.168.1.10", and the
whitespace-only input "  " yields "unknown". -/
theorem spec_c10_witness :
    OLTCLI.sanatize_host "192.168.1.10:22" = LockManager.sanitize_host "192.168.1.10:22" ∧
    (("192.168.1.10" : String) ≠ "" ∧
      (∀ c ∈ ("192.168.1.10" : String).data, (c.isAlphanum || safePunct c) = true) ∧
      (∀ c, ("192.168.1.10" : String).data.head? = some c → safePunct c = false) ∧
      (∀ c, ("192.168.1.10" : String).data.getLast? = some c → safePunct c = false)) ∧
    LockManager.sanitize_host "  " = some "unknown" :=
  ⟨spec_c10.1 "192.168.1.10:22",
   spec_c10.2.1 "192.168.1.10:22" "192.168.1.10" rfl,
   spec_c10.2.2 "  " (by decide)⟩

/-! ## Claim C1: cache freshness -/

/-- Claim C1: `load_if_fresh` returns absent (`none`) without raising
when the policy is disabled, when the cache file does not exist, or
when the file's age `now - mtime` strictly exceeds `ttl_seconds`; when
the policy is enabled, the file exists with a decodable document and
age at most the TTL, it returns that parsed document. With TTL 60: a
file written 61 seconds ago yields absent, one written 59 seconds ago
yields the document. -/
theorem spec_c1 (policy : CachePolicy) (file : Option CacheFile) (now : ℚ) :
    (policy.enabled = false → CacheStore.load_if_fresh policy file now = .ok none) ∧
    (CacheStore.load_if_fresh policy none now = .ok none) ∧
    (∀ f : CacheFile, file = some f → now - f.mtime > (policy.ttl_seconds : ℚ) →
      CacheStore.load_if_fresh policy file now = .ok none) ∧
    (∀ (mt : ℚ) (d : Json), policy.enabled = true → file = some ⟨mt, some d⟩ →
      now - mt ≤ (policy.ttl_seconds : ℚ) →
      CacheStore.load_if_fresh policy file now = .ok (some d)) ∧
    (∀ (pol60 : CachePolicy) (mt : ℚ) (d : Json),
      pol60.enabled = true → pol60.ttl_seconds = 60 →
      CacheStore.load_if_fresh pol60 (some ⟨mt, some d⟩) (mt + 61) = .ok none ∧
      CacheStore.load_if_fresh pol60 (some ⟨mt, some d⟩) (mt + 59) = .ok (some d)) := by
  have pstale : ∀ (pol : CachePolicy) (f : CacheFile) (t : ℚ),
      t - f.mtime > (pol.ttl_seconds : ℚ) →
      CacheStore.load_if_fresh pol (some f) t = .ok none := by
    intro pol f t hage
    show (if pol.enabled = false then Except.ok none
          else if t - f.mtime > (pol.ttl_seconds : ℚ) then Except.ok none
          else match f.doc with
            | some d => Except.ok (some d)
            | none => Except.error "cache file is not valid JSON") = Except.ok none
    rcases henb : pol.enabled with _ | _
    · rw [if_pos rfl]
    · rw [if_neg (by simp), if_pos hage]
  have pfresh : ∀ (pol : CachePolicy) (mt : ℚ) (d : Json) (t : ℚ), pol.enabled = true →
      t - mt ≤ (pol.ttl_seconds : ℚ) →
      CacheStore.load_if_fresh pol (some ⟨mt, some d⟩) t = .ok (some d) := by
    intro pol mt d t hen hage
    show (if pol.enabled = false then Except.ok none
          else if t - mt > (pol.ttl_seconds : ℚ) then Except.ok none
          else Except.ok (some d)) = Except.ok (some d)
    rw [if_neg (by simp [hen]), if_neg (not_lt.mpr hage)]
  refine ⟨fun hdis => ?_, ?_, fun f hf hage => ?_, fun mt d hen hf hage => ?_,
    fun pol60 mt d hen httl => ⟨?_, ?_⟩⟩
  · simp [CacheStore.load_if_fresh, hdis]
  · unfold CacheStore.load_if_fresh
    split <;> rfl
  · rw [hf]
    exact pstale policy f now hage
  · rw [hf]
    exact pfresh policy mt d now hen hage
  · refine pstale pol60 ⟨mt, some d⟩ (mt + 61) ?_
    rw [httl]
    have : mt + 61 - mt = (61 : ℚ) := by ring
    rw [this]
    norm_num
  · refine pfresh pol60 mt d (mt + 59) hen ?_
    rw [httl]
    have : mt + 59 - mt = (59 : ℚ) := by ring
    rw [this]
    norm_num

/-- Witness for C1: with TTL 60 and an enabled policy, a file written at
time 0 holding the document 5 is absent at time 61 and returned at
time 59. -/
theorem spec_c1_witness :
    CacheStore.load_if_fresh ⟨"/tmp/h.stats.json", 60, true, "h"⟩
        (some ⟨0, some (.int 5)⟩) 61 = .ok none ∧
    CacheStore.load_if_fresh ⟨"/tmp/h.stats.json", 60, true, "h"⟩
        (some ⟨0, some (.int 5)⟩) 59 = .ok (some (.int 5)) :=
  ⟨(spec_c1 ⟨"/tmp/h.stats.json", 60, true, "h"⟩ (some ⟨0, some (.int 5)⟩) 61).2.2.1
      ⟨0, some (.int 5)⟩ rfl (by norm_num),
   (spec_c1 ⟨"/tmp/h.stats.json", 60, true, "h"⟩ (some ⟨0, some (.int 5)⟩) 59).2.2.2.1
      0 (.int 5) rfl rfl (by norm_num)⟩

/-! ## Claim C2: save/load round trip -/

/-- Claim C2: for every document and every enabled policy with positive
TTL whose cache directory is writable, `save` followed immediately by
`load_if_fresh` returns a document deep-equal to the saved one. -/
theorem spec_c2 (policy : CachePolicy) (doc : Json) (env : CacheDirEnv)
    (file : Option CacheFile) (now : ℚ)
    (hen : policy.enabled = true) (httl : 0 < policy.ttl_seconds)
    (h1 : env.mkdirOk = true) (h2 : env.dirWritable = true) (h3 : env.writeOk = true) :
    (CacheStore.save policy doc env file now).bind
        (fun file2 => CacheStore.load_if_fresh policy file2 now) = .ok (some doc) := by
  unfold CacheStore.save
  rw [if_neg (by simp [hen]), if_neg (by simp [h1]), if_neg (by simp [h2]),
    if_neg (by simp [h3])]
  have hle : now - now ≤ (policy.ttl_seconds : ℚ) := by
    rw [sub_self]
    exact_mod_cast httl.le
  show (if policy.enabled = false then Except.ok none
        else if now - now > (policy.ttl_seconds : ℚ) then Except.ok none
        else Except.ok (some doc)) = Except.ok (some doc)
  rw [if_neg (by simp [hen]), if_neg (not_lt.mpr hle)]

/-- Witness for C2 at a concrete input: saving an object document with
an enabled TTL-60 policy into an empty writable cache at time 5, then
loading at time 5, returns the document. -/
theorem spec_c2_witness :
    (CacheStore.save ⟨"/tmp/h.stats.json", 60, true, "h"⟩ (.obj [("A", .int 1)])
        ⟨true, true, true⟩ none 5).bind
      (fun file2 => CacheStore.load_if_fresh ⟨"/tmp/h.stats.json", 60, true, "h"⟩ file2 5) =
      .ok (some (.obj [("A", .int 1)])) :=
  spec_c2 ⟨"/tmp/h.stats.json", 60, true, "h"⟩ (.obj [("A", .int 1)]) ⟨true, true, true⟩
    none 5 rfl (by norm_num) rfl rfl rfl

/-! ## Claim C3: stale-lock recovery -/

/-- Claim C3: if, during `wait_for_refresh` and before the overall
timeout elapses, the cache is not fresh and the lock file exists with
modification-time age strictly greater than 10 seconds, the loop
touches the lock file's modification time (sets it to the current
time) and returns success, even though the cache is not fresh. -/
theorem spec_c3 (policy : CachePolicy) (w : LockWorld) (timeout t0 lm : ℚ) (fuel : ℕ)
    (hfuel : fuel ≠ 0) (htimeout : 0 < timeout)
    (hfresh : LockManager.is_cache_fresh policy w t0 = false)
    (hlock : w.lockMtime t0 = some lm) (hage : t0 - lm > 10) :
    LockManager.wait_for_refresh policy w timeout fuel t0 = ⟨true, t0, some t0⟩ := by
  obtain ⟨n, rfl⟩ := Nat.exists_eq_succ_of_ne_zero hfuel
  unfold LockManager.wait_for_refresh LockManager.waitLoop
  rw [if_pos (by simpa using htimeout)]
  rw [if_neg (by simp [hfresh])]
  simp only [hlock]
  rw [if_pos hage]

/-- Witness for C3: with an empty cache, a lock last touched at time 0,
and the wait started at time 11 (the lock 11 seconds old), the loop
immediately touches the lock and proceeds. -/
theorem spec_c3_witness :
    LockManager.wait_for_refresh ⟨"/tmp/h.stats.json", 60, true, "h"⟩
        ⟨fun _ => some 0, fun _ => none⟩ 30 120 11 = ⟨true, 11, some 11⟩ :=
  spec_c3 ⟨"/tmp/h.stats.json", 60, true, "h"⟩ ⟨fun _ => some 0, fun _ => none⟩ 30 11 0 120
    (by decide) (by norm_num) (by simp [LockManager.is_cache_fresh]) rfl (by norm_num)

/-! ## Claim C4: unlocked degraded fetch writes no cache -/

/-- Claim C4: when `get_all` finds no fresh cache, fails to acquire the
lock (a lock file exists), and `wait_for_refresh` returns failure
(timeout), it still fetches the document via the transport and returns
it after array sorting, but never calls `CacheStore.save` (the outcome
records no saved document), leaving the cache file unchanged. -/
theorem spec_c4 (policy : CachePolicy) (w : LockWorld) (env : CacheDirEnv)
    (fetched : Json) (timeout : ℚ) (fuel : ℕ) (t0 lm : ℚ)
    (hmiss : CacheStore.load_if_fresh policy (w.cacheFile t0) t0 = .ok none)
    (hlock : w.lockMtime t0 = some lm)
    (hwait : (LockManager.wait_for_refresh policy w timeout fuel t0).proceed = false) :
    OLTClient.get_all policy w env fetched timeout fuel t0 =
      .ok ⟨OLTClient.sort_arrays fetched, none⟩ := by
  simp only [OLTClient.get_all, hmiss, hlock]
  rw [if_neg (by simp [hwait])]

/-- Witness for C4: no cache file ever exists, a lock file created at
time 0 blocks acquisition at time 0 and disappears afterwards (its
holder releases without writing), the timeout is 1 second; the wait
times out and `get_all` returns the sorted fetched document with no
save recorded. -/
theorem spec_c4_witness :
    OLTClient.get_all ⟨"/tmp/h.stats.json", 60, true, "h"⟩
        ⟨fun t => if t = 0 then some 0 else none, fun _ => none⟩ ⟨true, true, true⟩
        (.obj [("Ethernet", .arr [.obj [("Name", .str "e1")]])]) 1 8 0 =
      .ok ⟨OLTClient.sort_arrays (.obj [("Ethernet", .arr [.obj [("Name", .str "e1")]])]),
           none⟩ :=
  spec_c4 ⟨"/tmp/h.stats.json", 60, true, "h"⟩
    ⟨fun t => if t = 0 then some 0 else none, fun _ => none⟩ ⟨true, true, true⟩
    (.obj [("Ethernet", .arr [.obj [("Name", .str "e1")]])]) 1 8 0 0
    rfl (by simp)
    (by norm_num [LockManager.wait_for_refresh, LockManager.waitLoop,
      LockManager.is_cache_fresh, OLT_LOCK_POLL_INTERVAL])


/-! ## Claim C5: parser/evaluator lemmas -/

namespace JsonPath

theorem tryKeyAt_good {l : List Char} {t : PathToken} {n : ℕ}
    (h : tryKeyAt l = some (t, n)) : GoodToken t := by
  cases l with
  | nil => simp [tryKeyAt] at h
  | cons c rest =>
    simp only [tryKeyAt] at h
    split_ifs at h
    rw [Option.some.injEq, Prod.mk.injEq] at h
    obtain ⟨h1, _⟩ := h
    rw [← h1]
    exact Or.inl ⟨rfl, _, rfl⟩

theorem tryKey_good {l : List Char} {t : PathToken} {n : ℕ}
    (h : tryKey l = some (t, n)) : GoodToken t := by
  unfold tryKey at h
  split at h
  · next rest =>
      rcases hK : tryKeyAt rest with _ | ⟨t2, n2⟩
      · simp only [hK] at h
        exact tryKeyAt_good h
      · simp only [hK] at h
        rw [Option.some.injEq, Prod.mk.injEq] at h
        obtain ⟨h1, _⟩ := h
        rw [← h1]
        exact tryKeyAt_good hK
  · exact tryKeyAt_good h

theorem tryQuotedAt_good {l : List Char} {t : PathToken} {n : ℕ}
    (h : tryQuotedAt l = some (t, n)) : GoodToken t := by
  unfold tryQuotedAt at h
  split at h
  · split_ifs at h
    rw [Option.some.injEq, Prod.mk.injEq] at h
    obtain ⟨h1, _⟩ := h
    rw [← h1]
    exact Or.inl ⟨rfl, _, rfl⟩
  · simp at h

theorem tryQuoted_good {l : List Char} {t : PathToken} {n : ℕ}
    (h : tryQuoted l = some (t, n)) : GoodToken t := by
  unfold tryQuoted at h
  split at h
  · next rest =>
      rcases hK : tryQuotedAt rest with _ | ⟨t2, n2⟩
      · simp only [hK] at h
        exact tryQuotedAt_good h
      · simp only [hK] at h
        rw [Option.some.injEq, Prod.mk.injEq] at h
        obtain ⟨h1, _⟩ := h
        rw [← h1]
        exact tryQuotedAt_good hK
  · exact tryQuotedAt_good h

theorem tryFilterTok_good {l : List Char} {t : PathToken} {n : ℕ}
    (h : tryFilterTok l = some (t, n)) : GoodToken t := by
  unfold tryFilterTok at h
  split at h
  · split_ifs at h
    · split at h
      · split_ifs at h
        rw [Option.some.injEq, Prod.mk.injEq] at h
        obtain ⟨h1, _⟩ := h
        rw [← h1]
        exact Or.inr (Or.inr (Or.inr ⟨rfl, _, _, rfl, rfl⟩))
      · simp at h
  · simp at h

theorem tryIndexTok_good {l : List Char} {t : PathToken} {n : ℕ}
    (h : tryIndexTok l = some (t, n)) : GoodToken t := by
  unfold tryIndexTok at h
  split at h
  · rw [Option.some.injEq, Prod.mk.injEq] at h
    obtain ⟨h1, _⟩ := h
    rw [← h1]
    exact Or.inr (Or.inr (Or.inl rfl))
  · split_ifs at h
    rw [Option.some.injEq, Prod.mk.injEq] at h
    obtain ⟨h1, _⟩ := h
    rw [← h1]
    exact Or.inr (Or.inl ⟨rfl, _, Int.ofNat_nonneg _, rfl⟩)
  · simp at h

theorem tryBracketQuoted_good {l : List Char} {t : PathToken} {n : ℕ}
    (h : tryBracketQuoted l = some (t, n)) : GoodToken t := by
  unfold tryBracketQuoted at h
  split at h
  · split_ifs at h
    rw [Option.some.injEq, Prod.mk.injEq] at h
    obtain ⟨h1, _⟩ := h
    rw [← h1]
    exact Or.inl ⟨rfl, _, rfl⟩
  · simp at h

theorem tryToken_good {l : List Char} {t : PathToken} {n : ℕ}
    (h : tryToken l = some (t, n)) : GoodToken t := by
  unfold tryToken at h
  rcases h1 : tryKey l with _ | r1
  · simp only [h1] at h
    rcases h2 : tryQuoted l with _ | r2
    · simp only [h2] at h
      rcases h3 : tryFilterTok l with _ | r3
      · simp only [h3] at h
        rcases h4 : tryIndexTok l with _ | r4
        · simp only [h4] at h
          exact tryBracketQuoted_good h
        · simp only [h4, Option.some.injEq] at h
          rw [h] at h4
          exact tryIndexTok_good h4
      · simp only [h3, Option.some.injEq] at h
        rw [h] at h3
        exact tryFilterTok_good h3
    · simp only [h2, Option.some.injEq] at h
      rw [h] at h2
      exact tryQuoted_good h2
  · simp only [h1, Option.some.injEq] at h
    rw [h] at h1
    exact tryKey_good h1

end JsonPath

namespace JsonPath

/-- Every token produced by a successful parse is well formed. -/
theorem parseTokensAux_good : ∀ (fuel : ℕ) (l : List Char) (toks : List PathToken),
    parseTokensAux fuel l = .ok toks → ∀ t ∈ toks, GoodToken t := by
  intro fuel
  induction fuel with
  | zero =>
    intro l toks h t ht
    cases l with
    | nil =>
      rw [show parseTokensAux 0 [] = .ok [] from rfl, Except.ok.injEq] at h
      rw [← h] at ht
      simp at ht
    | cons c cs => exact absurd h (by simp [parseTokensAux])
  | succ n ih =>
    intro l toks h t ht
    cases l with
    | nil =>
      rw [show parseTokensAux (n + 1) [] = .ok [] from rfl, Except.ok.injEq] at h
      rw [← h] at ht
      simp at ht
    | cons c cs =>
      rw [show parseTokensAux (n + 1) (c :: cs) =
          (match tryToken (c :: cs) with
           | none => Except.error ("invalid path near: " ++ String.mk (c :: cs))
           | some (t0, n0) =>
             match parseTokensAux n (cs.drop (n0 - 1)) with
             | .ok ts => .ok (t0 :: ts)
             | .error e => .error e) from rfl] at h
      rcases htk : tryToken (c :: cs) with _ | ⟨t0, n0⟩
      · simp only [htk] at h
        exact absurd h (by simp)
      · simp only [htk] at h
        rcases hrec : parseTokensAux n (cs.drop (n0 - 1)) with e | ts
        · simp only [hrec] at h
          exact absurd h (by simp)
        · simp only [hrec, Except.ok.injEq] at h
          rw [← h] at ht
          rcases List.mem_cons.mp ht with rfl | hmem
          · exact tryToken_good htk
          · exact ih _ ts hrec t hmem

/-- A well-formed non-wildcard token never makes `_apply_one` raise. -/
theorem apply_one_total {t : PathToken} (hg : GoodToken t) (hnw : t.kind ≠ "wildcard") :
    ∀ cur : Json, ∃ r, apply_one cur t = .ok r := by
  rcases hg with ⟨hk, s, hv⟩ | ⟨hk, m, hm, hv⟩ | hk | ⟨hk, f, v, hf, hv⟩
  · intro cur
    cases cur with
    | obj kvs =>
      rcases hlk : lookupKey kvs (strOfOptPyVal t.value) with _ | v'
      · exact ⟨.null, by simp [apply_one, hk, hlk]⟩
      · exact ⟨v', by simp [apply_one, hk, hlk]⟩
    | null => exact ⟨.null, by simp [apply_one, hk]⟩
    | bool b => exact ⟨.null, by simp [apply_one, hk]⟩
    | int m => exact ⟨.null, by simp [apply_one, hk]⟩
    | float q => exact ⟨.null, by simp [apply_one, hk]⟩
    | str s2 => exact ⟨.null, by simp [apply_one, hk]⟩
    | arr xs => exact ⟨.null, by simp [apply_one, hk]⟩
  · intro cur
    cases cur with
    | arr xs =>
      by_cases hin : 0 ≤ m ∧ m < (xs.length : ℤ)
      · exact ⟨xs.getD m.toNat .null, by simp [apply_one, hk, hv, hin]⟩
      · exact ⟨.null, by simp [apply_one, hk, hv, hin]⟩
    | null => exact ⟨.null, by simp [apply_one, hk]⟩
    | bool b => exact ⟨.null, by simp [apply_one, hk]⟩
    | int m2 => exact ⟨.null, by simp [apply_one, hk]⟩
    | float q => exact ⟨.null, by simp [apply_one, hk]⟩
    | str s2 => exact ⟨.null, by simp [apply_one, hk]⟩
    | obj kvs => exact ⟨.null, by simp [apply_one, hk]⟩
  · exact absurd hk hnw
  · intro cur
    cases cur with
    | arr xs => exact ⟨(xs.find? (matchesFilterItem f v)).getD .null,
        by simp [apply_one, hk, hf, hv]⟩
    | null => exact ⟨.null, by simp [apply_one, hk]⟩
    | bool b => exact ⟨.null, by simp [apply_one, hk]⟩
    | int m2 => exact ⟨.null, by simp [apply_one, hk]⟩
    | float q => exact ⟨.null, by simp [apply_one, hk]⟩
    | str s2 => exact ⟨.null, by simp [apply_one, hk]⟩
    | obj kvs => exact ⟨.null, by simp [apply_one, hk]⟩

/-- Unfolding equation of `apply_tokens` on a token cons. -/
theorem apply_tokens_cons (cur : Json) (t : PathToken) (rest : List PathToken) :
    apply_tokens cur (t :: rest) =
      if t.kind = "wildcard" then
        match cur with
        | .arr xs =>
          if rest.isEmpty then .ok (.arr xs)
          else (xs.mapM (fun x => apply_tokens x rest)).map .arr
        | _ => .ok .null
      else
        match apply_one cur t with
        | .ok nxt => apply_tokens nxt rest
        | .error e => .error e := rfl

/-- Unfolding equation of `apply_tokens` at a wildcard over an array. -/
theorem apply_tokens_wildcard_arr (xs : List Json) (rest : List PathToken) {t : PathToken}
    (hw : t.kind = "wildcard") :
    apply_tokens (.arr xs) (t :: rest) =
      if rest.isEmpty then .ok (.arr xs)
      else (xs.mapM (fun x => apply_tokens x rest)).map .arr := by
  rw [apply_tokens_cons, if_pos hw]

/-- Evaluation of a parsed token list never raises. -/
theorem apply_tokens_total : ∀ toks : List PathToken, (∀ t ∈ toks, GoodToken t) →
    ∀ cur : Json, ∃ r, apply_tokens cur toks = .ok r := by
  intro toks
  induction toks with
  | nil => exact fun _ cur => ⟨cur, rfl⟩
  | cons t rest ih =>
    intro hg cur
    have hgrest : ∀ t2 ∈ rest, GoodToken t2 := fun t2 ht2 => hg t2 (List.mem_cons_of_mem _ ht2)
    by_cases hw : t.kind = "wildcard"
    · cases cur with
      | arr xs =>
        by_cases hre : rest.isEmpty
        · exact ⟨.arr xs, by rw [apply_tokens_wildcard_arr xs rest hw, if_pos hre]⟩
        · have hmap : ∀ ys : List Json,
              ∃ rs, ys.mapM (fun x => apply_tokens x rest) = .ok rs := by
            intro ys
            induction ys with
            | nil => exact ⟨[], rfl⟩
            | cons y yt ihy =>
              obtain ⟨r1, hr1⟩ := ih hgrest y
              obtain ⟨rs, hrs⟩ := ihy
              refine ⟨r1 :: rs, ?_⟩
              rw [List.mapM_cons, hr1, hrs]
              rfl
          obtain ⟨rs, hrs⟩ := hmap xs
          refine ⟨.arr rs, ?_⟩
          rw [apply_tokens_wildcard_arr xs rest hw, if_neg hre, hrs]
          rfl
      | null => exact ⟨.null, by rw [apply_tokens_cons, if_pos hw]⟩
      | bool b => exact ⟨.null, by rw [apply_tokens_cons, if_pos hw]⟩
      | int m => exact ⟨.null, by rw [apply_tokens_cons, if_pos hw]⟩
      | float q => exact ⟨.null, by rw [apply_tokens_cons, if_pos hw]⟩
      | str s => exact ⟨.null, by rw [apply_tokens_cons, if_pos hw]⟩
      | obj kvs => exact ⟨.null, by rw [apply_tokens_cons, if_pos hw]⟩
    · obtain ⟨r1, hr1⟩ := apply_one_total (hg t (List.mem_cons_self _ _)) hw cur
      obtain ⟨r2, hr2⟩ := ih hgrest r1
      refine ⟨r2, ?_⟩
      rw [apply_tokens_cons, if_neg hw]
      simp only [hr1]
      exact hr2

end JsonPath

/-- A parse error always is the source's `invalid path near` error,
raised at a non-empty stuck position where no grammar alternative
matches; in particular the fuel bound of `parseTokensAux` never fires
when the fuel is at least the input length. -/
theorem parseTokensAux_error_shape : ∀ (fuel : ℕ) (l : List Char), l.length ≤ fuel →
    ∀ e, JsonPath.parseTokensAux fuel l = .error e →
    ∃ s : List Char, s ≠ [] ∧ e = "invalid path near: " ++ String.mk s ∧
      JsonPath.tryToken s = none := by
  intro fuel
  induction fuel with
  | zero =>
    intro l hl e h
    have : l = [] := List.length_eq_zero.mp (Nat.le_zero.mp hl)
    rw [this] at h
    exact absurd h (by simp [JsonPath.parseTokensAux])
  | succ n ih =>
    intro l hl e h
    cases l with
    | nil => exact absurd h (by simp [JsonPath.parseTokensAux])
    | cons c cs =>
      rw [show JsonPath.parseTokensAux (n + 1) (c :: cs) =
          (match JsonPath.tryToken (c :: cs) with
           | none => Except.error ("invalid path near: " ++ String.mk (c :: cs))
           | some (t0, n0) =>
             match JsonPath.parseTokensAux n (cs.drop (n0 - 1)) with
             | .ok ts => .ok (t0 :: ts)
             | .error e => .error e) from rfl] at h
      rcases htk : JsonPath.tryToken (c :: cs) with _ | ⟨t0, n0⟩
      · simp only [htk, Except.error.injEq] at h
        exact ⟨c :: cs, by simp, h.symm, htk⟩
      · simp only [htk] at h
        rcases hrec : JsonPath.parseTokensAux n (cs.drop (n0 - 1)) with e2 | ts
        · simp only [hrec, Except.error.injEq] at h
          have hlen : (cs.drop (n0 - 1)).length ≤ n := by
            simp only [List.length_drop]
            simp only [List.length_cons] at hl
            omega
          obtain ⟨s, hs1, hs2, hs3⟩ := ih (cs.drop (n0 - 1)) hlen e2 hrec
          exact ⟨s, hs1, h ▸ hs2, hs3⟩
        · simp only [hrec] at h
          exact absurd h (by simp)

/-- Claim C5: parsing fails (with the `invalid path near` error the
source raises) exactly when some position of the path matches no
grammar alternative, which also covers unconsumed trailing input — the
embedded parser scans anchored alternatives and errors precisely at the
first stuck position, as `parse` does via the `m.start() != pos` check;
two such inputs are exhibited. Evaluation of any successfully parsed
path against any document never raises; in particular a missing key, a
key applied to a non-dict, an out-of-range index, and a filter with no
matching element each evaluate to the explicit absent value
(`Json.null`, the model of Python `None`) rather than an error. -/
theorem spec_c5 :
    (∀ (path : String) (toks : List PathToken), JsonPath.parse path = .ok toks →
      ∀ doc : Json, ∃ r, JsonPath.apply_tokens doc toks = .ok r) ∧
    (∀ (kvs : List (String × Json)) (s : String), lookupKey kvs s = none →
      JsonPath.apply_one (.obj kvs) ⟨"key", some (.s s), none, none⟩ = .ok .null) ∧
    (∀ (cur : Json) (s : String), cur.isObjB = false →
      JsonPath.apply_one cur ⟨"key", some (.s s), none, none⟩ = .ok .null) ∧
    (∀ (xs : List Json) (n : ℤ), ¬(0 ≤ n ∧ n < (xs.length : ℤ)) →
      JsonPath.apply_one (.arr xs) ⟨"index", some (.i n), none, none⟩ = .ok .null) ∧
    (∀ (xs : List Json) (f v : String), xs.find? (JsonPath.matchesFilterItem f v) = none →
      JsonPath.apply_one (.arr xs) ⟨"filter", none, some f, some v⟩ = .ok .null) ∧
    (∀ (path : String) (e : String), JsonPath.parse path = .error e →
      ∃ s : List Char, s ≠ [] ∧ e = "invalid path near: " ++ String.mk s ∧
        JsonPath.tryToken s = none) ∧
    (∃ e, JsonPath.parse "a..b" = .error e) ∧
    (∃ e, JsonPath.parse "a]" = .error e) := by
  refine ⟨?_, ?_, ?_, ?_, ?_, ?_, ⟨_, rfl⟩, ⟨_, rfl⟩⟩
  · intro path toks hp doc
    exact JsonPath.apply_tokens_total toks (JsonPath.parseTokensAux_good _ _ toks hp) doc
  · intro kvs s h
    simp [JsonPath.apply_one, JsonPath.strOfOptPyVal, h]
  · intro cur s h
    cases cur <;> simp_all [Json.isObjB, JsonPath.apply_one]
  · intro xs n h
    simp [JsonPath.apply_one, h]
  · intro xs f v h
    simp [JsonPath.apply_one, h]
  · intro path e h
    exact parseTokensAux_error_shape path.data.length path.data le_rfl e h

/-- Witness for C5: a successfully parsed concrete path evaluates
without error on a concrete document. -/
theorem spec_c5_witness :
    ∃ r, JsonPath.apply_tokens (.obj [("Ethernet", .arr [.int 1])])
      [⟨"key", some (.s "Ethernet"), none, none⟩,
       ⟨"index", some (.i 0), none, none⟩] = .ok r :=
  spec_c5.1 "Ethernet[0]"
    [⟨"key", some (.s "Ethernet"), none, none⟩, ⟨"index", some (.i 0), none, none⟩]
    rfl (.obj [("Ethernet", .arr [.int 1])])

/-! ## Claim C6: evaluation semantics of wildcard, filter, index -/

/-- Claim C6: a wildcard applied to an array with no following tokens
returns (a copy of) the array; with following tokens it returns the
array of the remaining tokens applied to each element; a filter returns
the first element that is a dict containing the field whose value
stringifies equal to the literal (absent value when none); an in-range
index returns the corresponding element. The three concrete examples of
the claim evaluate accordingly. -/
theorem spec_c6 :
    (∀ xs : List Json,
      JsonPath.apply_tokens (.arr xs) [⟨"wildcard", none, none, none⟩] = .ok (.arr xs)) ∧
    (∀ (xs : List Json) (rest : List PathToken), rest ≠ [] →
      JsonPath.apply_tokens (.arr xs) (⟨"wildcard", none, none, none⟩ :: rest) =
        (xs.mapM (fun x => JsonPath.apply_tokens x rest)).map .arr) ∧
    (∀ (xs : List Json) (f v : String),
      JsonPath.apply_one (.arr xs) ⟨"filter", none, some f, some v⟩ =
        .ok ((xs.find? (JsonPath.matchesFilterItem f v)).getD .null)) ∧
    (∀ (xs : List Json) (n : ℤ), 0 ≤ n → n < (xs.length : ℤ) →
      JsonPath.apply_one (.arr xs) ⟨"index", some (.i n), none, none⟩ =
        .ok (xs.getD n.toNat .null)) ∧
    JsonPath.select
        (.obj [("Ethernet", .arr [.obj [("Status", .str "up")], .obj [("Status", .str "down")]])])
        "Ethernet[0].Status" = .ok (.str "up") ∧
    JsonPath.select
        (.obj [("Ethernet", .arr [.obj [("Status", .str "up")], .obj [("Status", .str "down")]])])
        "Ethernet[*].Status" = .ok (.arr [.str "up", .str "down"]) ∧
    JsonPath.select
        (.obj [("PON", .arr [.obj [("Name", .str "pon1"), ("Status", .str "ok")],
                             .obj [("Name", .str "pon2"), ("Status", .str "bad")]])])
        "PON[?Name=pon1].Status" = .ok (.str "ok") := by
  refine ⟨fun xs => rfl, ?_, fun xs f v => rfl, ?_, rfl, rfl, rfl⟩
  · intro xs rest hne
    rw [JsonPath.apply_tokens_wildcard_arr xs rest rfl,
      if_neg (by simpa [List.isEmpty_iff] using hne)]
  · intro xs n h0 hlen
    simp [JsonPath.apply_one, h0, hlen]

/-- Witness for C6: the wildcard-with-rest and in-range index clauses
applied at concrete inputs. -/
theorem spec_c6_witness :
    JsonPath.apply_tokens (.arr [.obj [("A", .int 1)]])
        (⟨"wildcard", none, none, none⟩ :: [⟨"key", some (.s "A"), none, none⟩]) =
      (([.obj [("A", .int 1)]] : List Json).mapM
        (fun x => JsonPath.apply_tokens x [⟨"key", some (.s "A"), none, none⟩])).map .arr ∧
    JsonPath.apply_one (.arr [.int 7]) ⟨"index", some (.i 0), none, none⟩ =
      .ok (([.int 7] : List Json).getD (0 : ℤ).toNat .null) :=
  ⟨spec_c6.2.1 [.obj [("A", .int 1)]] [⟨"key", some (.s "A"), none, none⟩] (by decide),
   spec_c6.2.2.2.1 [.int 7] 0 (by decide) (by decide)⟩
